import Mathlib

/-!
# 64kalloc: allocation inside a single 64KB page

A verification development for `64KALLOC.C` (Borland Turbo C++ 3.0, 16-bit DOS).
In that compiler `unsigned int` is 16 bits wide, `unsigned long` is 32 bits wide and a
`void far *` is a pair of a 16-bit segment and a 16-bit offset.

The file first embeds the four functions of `64KALLOC.C`, then the external allocator
(`farmalloc` / `farfree`) as an explicit state machine, and finally states and proves
the properties of the specification.
-/

namespace Alloc64k

/-! ## Far pointers -/

/-- A `void far *`: 16-bit segment and 16-bit offset. -/
structure FarPtr where
  seg : Fin 65536
  off : Fin 65536
deriving DecidableEq, Repr

/-- The null far pointer `0000:0000` (the value of the C constant `0` as a far pointer). -/
def FarPtr.null : FarPtr := ⟨0, 0⟩

/-- Modelled from the spec: the header macro `FP_SEG` of `<dos.h>` (not part of the
repository) gives the 16-bit segment of a far pointer, as the spec's "far/segmented
pointers in the source domain". -/
def FP_SEG (ptr : FarPtr) : Nat := ptr.seg.val

/-- Modelled from the spec: the header macro `FP_OFF` of `<dos.h>` (not part of the
repository) gives the 16-bit offset of a far pointer. -/
def FP_OFF (ptr : FarPtr) : Nat := ptr.off.val

/-- Modelled from the spec: the header macro `MK_FP` of `<dos.h>` (not part of the
repository) builds a far pointer from a segment and an offset; both are converted to
16 bits, so a wider argument is truncated. -/
def MK_FP (seg ofs : Nat) : FarPtr :=
  ⟨⟨seg % 65536, Nat.mod_lt _ (by decide)⟩, ⟨ofs % 65536, Nat.mod_lt _ (by decide)⟩⟩

/-! ## The address arithmetic of `64KALLOC.C` -/

/-- Source: `calculate_linear_address`:
`((unsigned long)FP_SEG(ptr) << 4) + (unsigned long)FP_OFF(ptr)` in 32-bit arithmetic. -/
def calculate_linear_address (ptr : FarPtr) : Nat :=
  (((FP_SEG ptr) <<< 4) % 2 ^ 32 + FP_OFF ptr) % 2 ^ 32

/-- Source: `is_64kb_boundary_aligned`.
`size >= 65536UL` selects the test `(unsigned int)calculate_linear_address(ptr) == 0`
(truncation to 16 bits); otherwise the test is
`(calculate_linear_address(ptr) & 0xFFFFUL) + size <= 65536UL` in 32-bit arithmetic.
The C `int` result is 1 or 0. -/
def is_64kb_boundary_aligned (ptr : FarPtr) (size : Nat) : Nat :=
  if size ≥ 65536 then
    (if calculate_linear_address ptr % 65536 = 0 then 1 else 0)
  else
    (if ((calculate_linear_address ptr &&& 0xFFFF) + size) % 2 ^ 32 ≤ 65536 then 1 else 0)

/-- Source: `align_payload_to_64kb`:
`payload_segment = (calculate_linear_address(p) + 15ul) >> 4ul` in 32-bit arithmetic,
then `MK_FP(payload_segment, 0)`. -/
def align_payload_to_64kb (faralloced_ptr : FarPtr) : FarPtr :=
  let payload_segment := ((calculate_linear_address faralloced_ptr + 15) % 2 ^ 32) >>> 4
  MK_FP payload_segment 0

/-! ## The external allocator -/

/-- The external allocator `farmalloc` / `farfree` of `<alloc.h>` as a state machine over
an arbitrary state type: `farmalloc` may answer any far pointer (null included) and both
calls may change the state in any way. -/
structure Allocator (σ : Type) where
  farmalloc : σ → Nat → FarPtr × σ
  farfree : σ → FarPtr → σ

/-- Source: `#define MAX_PROBED_ALLOCS 256`. -/
def MAX_PROBED_ALLOCS : Nat := 256

/-- The automatic variables of `faralloc_inside_64kb_page` together with the allocator
state: `ptr`, the array `consumed_page_ptrs` and the counter `num_consumed_pages`. -/
structure Frame (σ : Type) where
  heap : σ
  ptr : FarPtr
  consumed_page_ptrs : Nat → FarPtr
  num_consumed_pages : Nat

/-- Source: the argument of the consuming request,
`65520u - (unsigned int)(calculate_linear_address(ptr))`, a 16-bit unsigned subtraction. -/
def consume_size (ptr : FarPtr) : Nat :=
  (65520 + 65536 - calculate_linear_address ptr % 65536) % 65536

/-- Source: the first `while` loop of `faralloc_inside_64kb_page`. One unit of fuel pays
for one execution of the loop body; reaching the loop test with no fuel left, or storing
outside the 256 slots of `consumed_page_ptrs`, gives `none`. -/
def probe_loop {σ : Type} (A : Allocator σ) (num_bytes : Nat) :
    Nat → Frame σ → Option (Frame σ)
  | fuel, f =>
    if f.num_consumed_pages < MAX_PROBED_ALLOCS then
      match fuel with
      | 0 => none
      | fuel + 1 =>
        let r := A.farmalloc f.heap ((num_bytes + 15) % 2 ^ 32)
        let ptr := r.1
        if is_64kb_boundary_aligned (align_payload_to_64kb ptr) num_bytes ≠ 0 then
          some { f with heap := r.2, ptr := ptr }
        else
          let h1 := A.farfree r.2 ptr
          let c := A.farmalloc h1 (consume_size ptr)
          if f.num_consumed_pages < MAX_PROBED_ALLOCS then
            probe_loop A num_bytes fuel
              { heap := c.2
                ptr := FarPtr.null
                consumed_page_ptrs :=
                  Function.update f.consumed_page_ptrs f.num_consumed_pages c.1
                num_consumed_pages := f.num_consumed_pages + 1 }
          else none
    else some f

/-- Source: the second `while` loop,
`while (num_consumed_pages > 0) farfree(consumed_page_ptrs[--num_consumed_pages]);`. -/
def release_loop {σ : Type} (A : Allocator σ) (slots : Nat → FarPtr) : Nat → σ → σ
  | 0, h => h
  | n + 1, h => release_loop A slots n (A.farfree h (slots n))

/-- Source: `faralloc_inside_64kb_page`. The automatic variables `ptr` and
`consumed_page_ptrs` are not initialised by the code; `ptr0` and `slots0` are their
indeterminate initial contents. `fuel` bounds the executions of the body of the first
loop (see `probe_loop`). The result is the returned pointer and the allocator state
after the call; `none` stands for a run cut short. -/
def faralloc_inside_64kb_page {σ : Type} (A : Allocator σ) (fuel : Nat)
    (ptr0 : FarPtr) (slots0 : Nat → FarPtr) (heap : σ) (num_bytes : Nat) :
    Option (FarPtr × σ) :=
  match probe_loop A num_bytes fuel
      { heap := heap, ptr := ptr0, consumed_page_ptrs := slots0, num_consumed_pages := 0 } with
  | none => none
  | some f => some (f.ptr, release_loop A f.consumed_page_ptrs f.num_consumed_pages f.heap)

/-- The frame after one failed probe iteration. -/
def next_frame {σ : Type} (A : Allocator σ) (num_bytes : Nat) (f : Frame σ) : Frame σ :=
  let r := A.farmalloc f.heap ((num_bytes + 15) % 2 ^ 32)
  let c := A.farmalloc (A.farfree r.2 r.1) (consume_size r.1)
  { heap := c.2
    ptr := FarPtr.null
    consumed_page_ptrs := Function.update f.consumed_page_ptrs f.num_consumed_pages c.1
    num_consumed_pages := f.num_consumed_pages + 1 }

/-! ## Observing the allocator calls -/

/-- One call of the external allocator: a request with its size and answer, or a release. -/
inductive Event where
  | malloc (size : Nat) (ret : FarPtr)
  | free (ptr : FarPtr)
deriving DecidableEq, Repr

/-- Any allocator, with the sequence of calls it has served recorded next to its state.
The answers and the inner state are those of `A`. -/
def logged {σ : Type} (A : Allocator σ) : Allocator (σ × List Event) where
  farmalloc := fun s n =>
    ((A.farmalloc s.1 n).1, ((A.farmalloc s.1 n).2, s.2 ++ [Event.malloc n (A.farmalloc s.1 n).1]))
  farfree := fun s p => (A.farfree s.1 p, s.2 ++ [Event.free p])

/-- The calls of one failed probe iteration: the probe request answered `pc.1`, its
release, and the consuming request answered `pc.2`. -/
def iter_events (num_bytes : Nat) (pc : FarPtr × FarPtr) : List Event :=
  [Event.malloc ((num_bytes + 15) % 2 ^ 32) pc.1, Event.free pc.1,
   Event.malloc (consume_size pc.1) pc.2]

/-- The releases of the second loop for the consuming pointers `cs` (listed in the order
they were obtained): last obtained, first released. -/
def release_events (cs : List FarPtr) : List Event :=
  cs.reverse.map Event.free

/-- The calls of one whole call of `faralloc_inside_64kb_page`: the failed iterations
`iters`, the calls `final` of the last iteration, and the releases of the consuming
pointers in reverse order. -/
def call_events (num_bytes : Nat) (iters : List (FarPtr × FarPtr)) (final : List Event) :
    List Event :=
  iters.flatMap (iter_events num_bytes) ++ final ++ release_events (iters.map Prod.snd)

/-- The calls of the last iteration: none when the loop ran out of iterations
(`last = none`), else the one probe request whose answer `p` was accepted. -/
def final_events (num_bytes : Nat) (last : Option FarPtr) : List Event :=
  match last with
  | none => []
  | some p => [Event.malloc ((num_bytes + 15) % 2 ^ 32) p]

/-- The answers to the probe requests of a call, in order: those of the failed
iterations, then the accepted one if there is one. -/
def probe_answers (iters : List (FarPtr × FarPtr)) (last : Option FarPtr) : List FarPtr :=
  iters.map Prod.fst ++ last.toList

/-- The set of live blocks after one allocator call: a request answered with a non-null
block makes it live, a release of a non-null block removes it, null changes nothing. -/
def live_step (L : Finset FarPtr) : Event → Finset FarPtr
  | Event.malloc _ p => if p = FarPtr.null then L else insert p L
  | Event.free p => if p = FarPtr.null then L else L.erase p

/-- The set of live blocks after a sequence of allocator calls. -/
def live_after (L : Finset FarPtr) (tr : List Event) : Finset FarPtr :=
  tr.foldl live_step L

/-- The allocator hands out no live block: every request in the sequence is answered
with null or with a block that is not live at that moment. -/
def Fresh : Finset FarPtr → List Event → Prop
  | _, [] => True
  | L, Event.malloc n p :: tr =>
    (p = FarPtr.null ∨ p ∉ L) ∧ Fresh (live_step L (Event.malloc n p)) tr
  | L, Event.free p :: tr => Fresh (live_step L (Event.free p)) tr

/-- Every release in the sequence is passed null or a block that is live at that moment
and that this sequence obtained from a request and has not released since. `L` is the
set of live blocks and `own` the blocks obtained and still held. -/
def SafeFrees : Finset FarPtr → Finset FarPtr → List Event → Prop
  | _, _, [] => True
  | L, own, Event.malloc n p :: tr =>
    SafeFrees (live_step L (Event.malloc n p)) (live_step own (Event.malloc n p)) tr
  | L, own, Event.free p :: tr =>
    (p = FarPtr.null ∨ (p ∈ L ∧ p ∈ own)) ∧
      SafeFrees (live_step L (Event.free p)) (live_step own (Event.free p)) tr

/-- `Fresh` can be checked by running through the sequence. -/
def Fresh.dec : (L : Finset FarPtr) → (tr : List Event) → Decidable (Fresh L tr)
  | _, [] => isTrue trivial
  | L, Event.malloc n p :: tr =>
    have := Fresh.dec (live_step L (Event.malloc n p)) tr
    inferInstanceAs
      (Decidable ((p = FarPtr.null ∨ p ∉ L) ∧ Fresh (live_step L (Event.malloc n p)) tr))
  | L, Event.free p :: tr =>
    have := Fresh.dec (live_step L (Event.free p)) tr
    inferInstanceAs (Decidable (Fresh (live_step L (Event.free p)) tr))

instance (L : Finset FarPtr) (tr : List Event) : Decidable (Fresh L tr) := Fresh.dec L tr

/-- `SafeFrees` can be checked by running through the sequence. -/
def SafeFrees.dec : (L own : Finset FarPtr) → (tr : List Event) → Decidable (SafeFrees L own tr)
  | _, _, [] => isTrue trivial
  | L, own, Event.malloc n p :: tr =>
    have := SafeFrees.dec (live_step L (Event.malloc n p)) (live_step own (Event.malloc n p)) tr
    inferInstanceAs (Decidable
      (SafeFrees (live_step L (Event.malloc n p)) (live_step own (Event.malloc n p)) tr))
  | L, own, Event.free p :: tr =>
    have := SafeFrees.dec (live_step L (Event.free p)) (live_step own (Event.free p)) tr
    inferInstanceAs (Decidable ((p = FarPtr.null ∨ (p ∈ L ∧ p ∈ own)) ∧
      SafeFrees (live_step L (Event.free p)) (live_step own (Event.free p)) tr))

instance (L own : Finset FarPtr) (tr : List Event) : Decidable (SafeFrees L own tr) :=
  SafeFrees.dec L own tr

/-! ## Concrete allocators used as examples -/

/-- An allocator that answers its requests from a fixed list, in order, and refuses
(answers null) once the list is used up. Its state is the number of requests served. -/
def scripted (answers : List FarPtr) : Allocator Nat where
  farmalloc := fun k _ => (answers.getD k FarPtr.null, k + 1)
  farfree := fun k _ => k

/-- A first-fit run on an empty heap that starts at `0800:0004`: the first probe of
65551 bytes straddles a page boundary, the consuming block takes its place and fills the
page up to `0FFF:0000`, and the second probe at `0FFF:0004` is accepted. -/
def first_fit_answers : List FarPtr := [MK_FP 2048 4, MK_FP 2048 4, MK_FP 4095 4]

/-- The same run on a heap with no room for the second probe: that request is refused. -/
def exhausted_answers : List FarPtr := [MK_FP 2048 4, MK_FP 2048 4]

/-- The calls recorded on the first-fit run for a request of `n` bytes whose first probe
is rejected. -/
def first_fit_calls (n : Nat) : List Event :=
  [Event.malloc (n + 15) (MK_FP 2048 4), Event.free (MK_FP 2048 4),
   Event.malloc 32748 (MK_FP 2048 4), Event.malloc (n + 15) (MK_FP 4095 4),
   Event.free (MK_FP 2048 4)]

/-- The calls recorded on the run whose second probe is refused. -/
def exhausted_calls (n : Nat) : List Event :=
  [Event.malloc (n + 15) (MK_FP 2048 4), Event.free (MK_FP 2048 4),
   Event.malloc 32748 (MK_FP 2048 4), Event.malloc (n + 15) FarPtr.null,
   Event.free (MK_FP 2048 4)]

/-- An adversarial allocator: every request is answered `0800:0004`, whose aligned
pointer never starts a 64KB page. -/
def stubborn : Allocator Unit where
  farmalloc := fun _ _ => (MK_FP 2048 4, ())
  farfree := fun _ _ => ()

/-! ## Address arithmetic: basic facts -/

theorem calculate_linear_address_eq (p : FarPtr) :
    calculate_linear_address p = p.seg.val * 16 + p.off.val := by
  have h1 := p.seg.isLt
  have h2 := p.off.isLt
  unfold calculate_linear_address FP_SEG FP_OFF
  rw [Nat.shiftLeft_eq]
  omega

theorem calculate_linear_address_lt (p : FarPtr) :
    calculate_linear_address p < 1114096 := by
  have h1 := p.seg.isLt
  have h2 := p.off.isLt
  rw [calculate_linear_address_eq]
  omega

theorem calculate_linear_address_MK_FP_zero (s : Nat) :
    calculate_linear_address (MK_FP s 0) = (s % 65536) * 16 := by
  rw [calculate_linear_address_eq]
  simp [MK_FP]

theorem calculate_linear_address_align (p : FarPtr) :
    calculate_linear_address (align_payload_to_64kb p)
      = (((calculate_linear_address p + 15) / 16) % 65536) * 16 := by
  have h := calculate_linear_address_lt p
  unfold align_payload_to_64kb
  simp only []
  rw [calculate_linear_address_MK_FP_zero, Nat.shiftRight_eq_div_pow,
    Nat.mod_eq_of_lt (by omega : calculate_linear_address p + 15 < 2 ^ 32)]

theorem is_64kb_boundary_aligned_ne_zero (p : FarPtr) (size : Nat) :
    is_64kb_boundary_aligned p size ≠ 0 ↔
      (65536 ≤ size ∧ calculate_linear_address p % 65536 = 0) ∨
      (size < 65536 ∧ calculate_linear_address p % 65536 + size ≤ 65536) := by
  have hand : calculate_linear_address p &&& 0xFFFF = calculate_linear_address p % 65536 :=
    Nat.and_pow_two_sub_one_eq_mod _ 16
  unfold is_64kb_boundary_aligned
  rw [hand]
  by_cases hs : size ≥ 65536
  · rw [if_pos hs]
    by_cases h0 : calculate_linear_address p % 65536 = 0
    · rw [if_pos h0]; simp; omega
    · rw [if_neg h0]; simp; omega
  · rw [if_neg hs]
    have hlt : (calculate_linear_address p % 65536 + size) % 2 ^ 32
        = calculate_linear_address p % 65536 + size := by
      apply Nat.mod_eq_of_lt
      have := Nat.mod_lt (calculate_linear_address p) (by decide : 65536 > 0)
      omega
    rw [hlt]
    by_cases h1 : calculate_linear_address p % 65536 + size ≤ 65536
    · rw [if_pos h1]; simp; omega
    · rw [if_neg h1]; simp; omega

theorem align_null : align_payload_to_64kb FarPtr.null = FarPtr.null := by decide

theorem is_64kb_boundary_aligned_null (size : Nat) :
    is_64kb_boundary_aligned (align_payload_to_64kb FarPtr.null) size ≠ 0 := by
  rw [align_null, is_64kb_boundary_aligned_ne_zero]
  have h0 : calculate_linear_address FarPtr.null = 0 := by decide
  rw [h0]
  omega

/-! ## The containment test and the alignment step -/

/-- C2: for every far pointer with linear address `a` and every size `s` with
`0 < s <= 65536`, `is_64kb_boundary_aligned` is nonzero exactly when
`a / 65536 = (a + s - 1) / 65536`, which is exactly when no multiple of 65536 lies
strictly inside the range, that is when `[a, a+s)` does not cross a page boundary. -/
theorem containment_iff_no_crossing (p : FarPtr) (s : Nat) (h0 : 0 < s) (h1 : s ≤ 65536) :
    (is_64kb_boundary_aligned p s ≠ 0 ↔
      calculate_linear_address p / 65536 = (calculate_linear_address p + s - 1) / 65536) ∧
    (is_64kb_boundary_aligned p s ≠ 0 ↔
      ¬ ∃ k : Nat, calculate_linear_address p < k * 65536 ∧
        k * 65536 < calculate_linear_address p + s) := by
  rw [is_64kb_boundary_aligned_ne_zero]
  generalize calculate_linear_address p = a
  have key : ((65536 ≤ s ∧ a % 65536 = 0) ∨ (s < 65536 ∧ a % 65536 + s ≤ 65536)) ↔
      a / 65536 = (a + s - 1) / 65536 := by omega
  refine ⟨key, key.trans ⟨?_, ?_⟩⟩
  · rintro h ⟨k, hk1, hk2⟩
    omega
  · intro h
    by_contra hne
    exact h ⟨(a + s - 1) / 65536, by omega, by omega⟩

/-- C2, the four examples of the specification: `(65530, 10)` straddles, `(65536, 10)`,
`(0, 65536)` fit, `(16, 65536)` straddles. -/
theorem containment_iff_no_crossing_witness :
    (calculate_linear_address (MK_FP 4095 10) = 65530 ∧
      is_64kb_boundary_aligned (MK_FP 4095 10) 10 = 0) ∧
    (calculate_linear_address (MK_FP 4096 0) = 65536 ∧
      is_64kb_boundary_aligned (MK_FP 4096 0) 10 ≠ 0) ∧
    (calculate_linear_address (MK_FP 0 0) = 0 ∧
      is_64kb_boundary_aligned (MK_FP 0 0) 65536 ≠ 0) ∧
    (calculate_linear_address (MK_FP 1 0) = 16 ∧
      is_64kb_boundary_aligned (MK_FP 1 0) 65536 = 0) := by
  refine ⟨⟨by decide, ?_⟩, ⟨by decide, ?_⟩, ⟨by decide, ?_⟩, ⟨by decide, ?_⟩⟩
  · by_contra h
    exact absurd ((containment_iff_no_crossing (MK_FP 4095 10) 10 (by decide)
      (by decide)).1.1 h) (by decide)
  · exact (containment_iff_no_crossing (MK_FP 4096 0) 10 (by decide) (by decide)).1.2
      (by decide)
  · exact (containment_iff_no_crossing (MK_FP 0 0) 65536 (by decide) (by decide)).1.2
      (by decide)
  · by_contra h
    exact absurd ((containment_iff_no_crossing (MK_FP 1 0) 65536 (by decide)
      (by decide)).1.1 h) (by decide)

/-- C8 fails as stated: for the far pointer `FFFF:0001` (linear address 1048561) the
segment handed to `MK_FP` is 65536, which is truncated to 0, so the aligned pointer has
linear address 0 and is not the least multiple of 16 at or above 1048561. -/
theorem align_not_least_multiple_at_FFFF_0001 :
    ¬ IsLeast {m : Nat | 16 ∣ m ∧ calculate_linear_address ⟨65535, 1⟩ ≤ m}
      (calculate_linear_address (align_payload_to_64kb ⟨65535, 1⟩)) := by
  intro h
  exact absurd h.1.2 (by decide)

/-- C8 (amended): for every far pointer `p` whose linear address is at most 1048560
(`FFFF:0000`), the linear address of `align_payload_to_64kb p` is the least multiple
of 16 that is greater than or equal to the linear address of `p`. -/
theorem align_least_multiple (p : FarPtr) (h : calculate_linear_address p ≤ 1048560) :
    IsLeast {m : Nat | 16 ∣ m ∧ calculate_linear_address p ≤ m}
      (calculate_linear_address (align_payload_to_64kb p)) := by
  rw [calculate_linear_address_align]
  generalize calculate_linear_address p = a at h ⊢
  have hmod : (a + 15) / 16 % 65536 = (a + 15) / 16 := Nat.mod_eq_of_lt (by omega)
  rw [hmod]
  refine ⟨⟨Nat.dvd_mul_left 16 _, by omega⟩, ?_⟩
  rintro m ⟨⟨k, rfl⟩, hm⟩
  omega

/-- C8 (amended), at `0FFF:000A` with linear address 65530: the aligned pointer is at
65536. -/
theorem align_least_multiple_witness :
    calculate_linear_address (MK_FP 4095 10) ≤ 1048560 ∧
    calculate_linear_address (align_payload_to_64kb (MK_FP 4095 10)) = 65536 ∧
    IsLeast {m : Nat | 16 ∣ m ∧ calculate_linear_address (MK_FP 4095 10) ≤ m}
      (calculate_linear_address (align_payload_to_64kb (MK_FP 4095 10))) :=
  ⟨by decide, by decide, align_least_multiple (MK_FP 4095 10) (by decide)⟩

/-- C9 fails as stated: a raw block of 16 bytes at `FFFF:0001` (linear address 1048561)
is long enough for a 1-byte payload, yet the aligned pointer has linear address 0, which
lies below the block. -/
theorem align_outside_block_at_FFFF_0001 :
    ¬ (∀ (s : Nat) (p : FarPtr) (length : Nat), 1 ≤ s → s + 15 ≤ length →
        16 ∣ calculate_linear_address (align_payload_to_64kb p) ∧
        calculate_linear_address p ≤ calculate_linear_address (align_payload_to_64kb p) ∧
        calculate_linear_address (align_payload_to_64kb p)
          < calculate_linear_address p + length ∧
        calculate_linear_address (align_payload_to_64kb p) + s
          ≤ calculate_linear_address p + s + 15) := by
  intro h
  exact absurd (h 1 ⟨65535, 1⟩ 16 (by decide) (by decide)).2.1 (by decide)

/-- C9 (amended): for every size `s >= 1` and every far pointer `p` with linear address
at most 1048560 to a raw block of length at least `s + 15`, the linear address `a'` of
`align_payload_to_64kb p` is a multiple of 16, satisfies `lin p <= a' < lin p + length`,
and the payload `[a', a' + s)` ends no later than `lin p + s + 15`. -/
theorem align_inside_block (s : Nat) (p : FarPtr) (length : Nat) (hs : 1 ≤ s)
    (hlen : s + 15 ≤ length) (hp : calculate_linear_address p ≤ 1048560) :
    16 ∣ calculate_linear_address (align_payload_to_64kb p) ∧
    calculate_linear_address p ≤ calculate_linear_address (align_payload_to_64kb p) ∧
    calculate_linear_address (align_payload_to_64kb p)
      < calculate_linear_address p + length ∧
    calculate_linear_address (align_payload_to_64kb p) + s
      ≤ calculate_linear_address p + s + 15 := by
  rw [calculate_linear_address_align]
  generalize calculate_linear_address p = a at hp ⊢
  have hmod : (a + 15) / 16 % 65536 = (a + 15) / 16 := Nat.mod_eq_of_lt (by omega)
  rw [hmod]
  refine ⟨Nat.dvd_mul_left 16 _, ?_, ?_, ?_⟩ <;> omega

/-- C9 (amended), for the driver's request: a block of 65536 + 15 bytes at `0800:0004`. -/
theorem align_inside_block_witness :
    (1 ≤ 65536 ∧ 65536 + 15 ≤ 65551 ∧ calculate_linear_address (MK_FP 2048 4) ≤ 1048560) ∧
    16 ∣ calculate_linear_address (align_payload_to_64kb (MK_FP 2048 4)) ∧
    calculate_linear_address (MK_FP 2048 4)
      ≤ calculate_linear_address (align_payload_to_64kb (MK_FP 2048 4)) ∧
    calculate_linear_address (align_payload_to_64kb (MK_FP 2048 4))
      < calculate_linear_address (MK_FP 2048 4) + 65551 ∧
    calculate_linear_address (align_payload_to_64kb (MK_FP 2048 4)) + 65536
      ≤ calculate_linear_address (MK_FP 2048 4) + 65536 + 15 :=
  ⟨⟨by decide, by decide, by decide⟩,
    align_inside_block 65536 (MK_FP 2048 4) 65551 (by decide) (by decide) (by decide)⟩

/-! ## The probing loop: unfolding -/

theorem probe_loop_done {σ : Type} (A : Allocator σ) (nb fuel : Nat) (f : Frame σ)
    (h : ¬ f.num_consumed_pages < MAX_PROBED_ALLOCS) :
    probe_loop A nb fuel f = some f := by
  cases fuel <;> simp [probe_loop, h]

theorem probe_loop_zero {σ : Type} (A : Allocator σ) (nb : Nat) (f : Frame σ)
    (h : f.num_consumed_pages < MAX_PROBED_ALLOCS) :
    probe_loop A nb 0 f = none := by
  simp [probe_loop, h]

theorem probe_loop_break {σ : Type} (A : Allocator σ) (nb fuel : Nat) (f : Frame σ)
    (h : f.num_consumed_pages < MAX_PROBED_ALLOCS)
    (ht : is_64kb_boundary_aligned
      (align_payload_to_64kb (A.farmalloc f.heap ((nb + 15) % 2 ^ 32)).1) nb ≠ 0) :
    probe_loop A nb (fuel + 1) f =
      some { f with heap := (A.farmalloc f.heap ((nb + 15) % 2 ^ 32)).2,
                    ptr := (A.farmalloc f.heap ((nb + 15) % 2 ^ 32)).1 } := by
  rw [probe_loop, if_pos h]
  simp only []
  rw [if_pos ht]

theorem probe_loop_continue {σ : Type} (A : Allocator σ) (nb fuel : Nat) (f : Frame σ)
    (h : f.num_consumed_pages < MAX_PROBED_ALLOCS)
    (ht : is_64kb_boundary_aligned
      (align_payload_to_64kb (A.farmalloc f.heap ((nb + 15) % 2 ^ 32)).1) nb = 0) :
    probe_loop A nb (fuel + 1) f = probe_loop A nb fuel (next_frame A nb f) := by
  rw [probe_loop, if_pos h]
  simp only []
  rw [if_neg (not_not.2 ht), if_pos h]
  rfl

/-! ## The probing loop: termination and exit condition -/

theorem probe_loop_total {σ : Type} (A : Allocator σ) (nb : Nat) :
    ∀ (fuel : Nat) (f : Frame σ), MAX_PROBED_ALLOCS - f.num_consumed_pages ≤ fuel →
      ∃ f', probe_loop A nb fuel f = some f' := by
  intro fuel
  induction fuel with
  | zero =>
    intro f hf
    exact ⟨f, probe_loop_done A nb 0 f (by omega)⟩
  | succ fuel ih =>
    intro f hf
    by_cases hn : f.num_consumed_pages < MAX_PROBED_ALLOCS
    · by_cases ht : is_64kb_boundary_aligned
          (align_payload_to_64kb (A.farmalloc f.heap ((nb + 15) % 2 ^ 32)).1) nb = 0
      · rw [probe_loop_continue A nb fuel f hn ht]
        apply ih
        simp only [next_frame]
        omega
      · exact ⟨_, probe_loop_break A nb fuel f hn ht⟩
    · exact ⟨f, probe_loop_done A nb _ f hn⟩

theorem probe_loop_exit {σ : Type} (A : Allocator σ) (nb : Nat) :
    ∀ (fuel : Nat) (f f' : Frame σ), probe_loop A nb fuel f = some f' →
      f.num_consumed_pages < MAX_PROBED_ALLOCS →
      is_64kb_boundary_aligned (align_payload_to_64kb f'.ptr) nb ≠ 0 ∨ f'.ptr = FarPtr.null := by
  intro fuel
  induction fuel with
  | zero =>
    intro f f' h hn
    rw [probe_loop_zero A nb f hn] at h
    cases h
  | succ fuel ih =>
    intro f f' h hn
    by_cases ht : is_64kb_boundary_aligned
        (align_payload_to_64kb (A.farmalloc f.heap ((nb + 15) % 2 ^ 32)).1) nb = 0
    · rw [probe_loop_continue A nb fuel f hn ht] at h
      by_cases hn' : (next_frame A nb f).num_consumed_pages < MAX_PROBED_ALLOCS
      · exact ih _ _ h hn'
      · rw [probe_loop_done A nb fuel _ hn'] at h
        cases h
        exact Or.inr rfl
    · rw [probe_loop_break A nb fuel f hn ht] at h
      cases h
      exact Or.inl ht

theorem faralloc_exit {σ : Type} (A : Allocator σ) (fuel : Nat) (ptr0 : FarPtr)
    (slots0 : Nat → FarPtr) (heap : σ) (nb : Nat) (r : FarPtr) (heap' : σ)
    (h : faralloc_inside_64kb_page A fuel ptr0 slots0 heap nb = some (r, heap')) :
    is_64kb_boundary_aligned (align_payload_to_64kb r) nb ≠ 0 ∨ r = FarPtr.null := by
  unfold faralloc_inside_64kb_page at h
  split at h
  · cases h
  · rename_i f hf
    cases h
    exact probe_loop_exit A nb fuel _ f hf (by simp [MAX_PROBED_ALLOCS])

theorem faralloc_total {σ : Type} (A : Allocator σ) (fuel : Nat) (ptr0 : FarPtr)
    (slots0 : Nat → FarPtr) (heap : σ) (nb : Nat) (hfuel : MAX_PROBED_ALLOCS ≤ fuel) :
    ∃ r heap', faralloc_inside_64kb_page A fuel ptr0 slots0 heap nb = some (r, heap') := by
  obtain ⟨f, hf⟩ := probe_loop_total A nb fuel
    { heap := heap, ptr := ptr0, consumed_page_ptrs := slots0, num_consumed_pages := 0 }
    (by simpa using hfuel)
  refine ⟨f.ptr, release_loop A f.consumed_page_ptrs f.num_consumed_pages f.heap, ?_⟩
  unfold faralloc_inside_64kb_page
  rw [hf]

/-! ## The sequence of allocator calls made by one call -/

theorem range_map_update (slots : Nat → FarPtr) (n : Nat) (c : FarPtr) :
    (List.range (n + 1)).map (Function.update slots n c) = (List.range n).map slots ++ [c] := by
  rw [List.range_succ, List.map_append]
  congr 1
  · apply List.map_congr_left
    intro i hi
    rw [List.mem_range] at hi
    exact Function.update_noteq (by omega) _ _
  · simp

/-- What the first loop does, read off the recorded calls: some failed iterations
`iters` (probe answer, consuming answer), then either one accepted probe or nothing. -/
theorem probe_loop_shape {σ : Type} (A : Allocator σ) (nb : Nat) :
    ∀ (fuel : Nat) (f f' : Frame (σ × List Event)),
      probe_loop (logged A) nb fuel f = some f' →
      ∃ (iters : List (FarPtr × FarPtr)) (final : List Event),
        f'.heap.2 = f.heap.2 ++ iters.flatMap (iter_events nb) ++ final ∧
        f'.num_consumed_pages = f.num_consumed_pages + iters.length ∧
        (List.range f'.num_consumed_pages).map f'.consumed_page_ptrs
          = (List.range f.num_consumed_pages).map f.consumed_page_ptrs
            ++ iters.map Prod.snd ∧
        (∀ pc ∈ iters, is_64kb_boundary_aligned (align_payload_to_64kb pc.1) nb = 0) ∧
        ((final = [Event.malloc ((nb + 15) % 2 ^ 32) f'.ptr] ∧
            is_64kb_boundary_aligned (align_payload_to_64kb f'.ptr) nb ≠ 0 ∧
            f'.num_consumed_pages < MAX_PROBED_ALLOCS) ∨
         (final = [] ∧ ¬ f'.num_consumed_pages < MAX_PROBED_ALLOCS ∧
            (iters ≠ [] → f'.ptr = FarPtr.null))) := by
  intro fuel
  induction fuel with
  | zero =>
    intro f f' h
    by_cases hn : f.num_consumed_pages < MAX_PROBED_ALLOCS
    · rw [probe_loop_zero _ nb f hn] at h
      cases h
    · rw [probe_loop_done _ nb 0 f hn] at h
      cases h
      exact ⟨[], [], by simp, by simp, by simp, by simp, Or.inr ⟨rfl, hn, by simp⟩⟩
  | succ fuel ih =>
    intro f f' h
    by_cases hn : f.num_consumed_pages < MAX_PROBED_ALLOCS
    · by_cases ht : is_64kb_boundary_aligned
          (align_payload_to_64kb ((logged A).farmalloc f.heap ((nb + 15) % 2 ^ 32)).1) nb = 0
      · rw [probe_loop_continue _ nb fuel f hn ht] at h
        obtain ⟨iters, final, h1, h2, h3, h4, h5⟩ := ih _ _ h
        refine ⟨(((logged A).farmalloc f.heap ((nb + 15) % 2 ^ 32)).1,
            ((logged A).farmalloc ((logged A).farfree
              ((logged A).farmalloc f.heap ((nb + 15) % 2 ^ 32)).2
              ((logged A).farmalloc f.heap ((nb + 15) % 2 ^ 32)).1)
              (consume_size ((logged A).farmalloc f.heap ((nb + 15) % 2 ^ 32)).1)).1) :: iters,
          final, ?_, ?_, ?_, ?_, ?_⟩
        · rw [h1]
          simp [next_frame, logged, iter_events]
        · rw [h2]
          simp [next_frame]
          omega
        · rw [h3]
          simp only [next_frame, range_map_update]
          simp
        · intro pc hpc
          rcases List.mem_cons.1 hpc with rfl | hpc
          · exact ht
          · exact h4 pc hpc
        · rcases h5 with ⟨a, b, c⟩ | ⟨a, b, c⟩
          · exact Or.inl ⟨a, b, c⟩
          · refine Or.inr ⟨a, b, fun _ => ?_⟩
            by_cases hi : iters = []
            · subst hi
              have hn' : ¬ (next_frame (logged A) nb f).num_consumed_pages
                  < MAX_PROBED_ALLOCS := by
                intro hlt
                apply b
                rw [h2]
                simpa using hlt
              rw [probe_loop_done _ nb fuel _ hn'] at h
              cases h
              rfl
            · exact c hi
      · rw [probe_loop_break _ nb fuel f hn ht] at h
        cases h
        exact ⟨[], _, by simp [logged], by simp, by simp, by simp, Or.inl ⟨rfl, ht, hn⟩⟩
    · rw [probe_loop_done _ nb _ f hn] at h
      cases h
      exact ⟨[], [], by simp, by simp, by simp, by simp, Or.inr ⟨rfl, hn, by simp⟩⟩

theorem release_loop_shape {σ : Type} (A : Allocator σ) (slots : Nat → FarPtr) :
    ∀ (n : Nat) (h : σ × List Event),
      (release_loop (logged A) slots n h).2
        = h.2 ++ release_events ((List.range n).map slots) := by
  intro n
  induction n with
  | zero => intro h; simp [release_loop, release_events]
  | succ n ih =>
    intro h
    rw [release_loop, ih]
    simp [logged, release_events, List.range_succ]

theorem probe_loop_bound {σ : Type} (A : Allocator σ) (nb : Nat) :
    ∀ (fuel : Nat) (f f' : Frame σ), probe_loop A nb fuel f = some f' →
      f.num_consumed_pages ≤ MAX_PROBED_ALLOCS → f'.num_consumed_pages ≤ MAX_PROBED_ALLOCS := by
  intro fuel
  induction fuel with
  | zero =>
    intro f f' h hle
    by_cases hn : f.num_consumed_pages < MAX_PROBED_ALLOCS
    · rw [probe_loop_zero _ nb f hn] at h
      cases h
    · rw [probe_loop_done _ nb 0 f hn] at h
      cases h
      exact hle
  | succ fuel ih =>
    intro f f' h hle
    by_cases hn : f.num_consumed_pages < MAX_PROBED_ALLOCS
    · by_cases ht : is_64kb_boundary_aligned
          (align_payload_to_64kb (A.farmalloc f.heap ((nb + 15) % 2 ^ 32)).1) nb = 0
      · rw [probe_loop_continue _ nb fuel f hn ht] at h
        exact ih _ _ h (by simp only [next_frame]; omega)
      · rw [probe_loop_break _ nb fuel f hn ht] at h
        cases h
        exact hle
    · rw [probe_loop_done _ nb _ f hn] at h
      cases h
      exact hle

/-- The recorded calls of one call of `faralloc_inside_64kb_page`: `k` failed iterations,
then either an accepted probe (the returned pointer, `k < 256`) or nothing (`k = 256`,
null returned), then the `k` releases. -/
theorem faralloc_shape {σ : Type} (A : Allocator σ) (fuel : Nat) (ptr0 : FarPtr)
    (slots0 : Nat → FarPtr) (s : σ) (tr0 : List Event) (nb : Nat) (r : FarPtr) (s' : σ)
    (tr : List Event)
    (h : faralloc_inside_64kb_page (logged A) fuel ptr0 slots0 (s, tr0) nb = some (r, (s', tr))) :
    ∃ (iters : List (FarPtr × FarPtr)) (final : List Event),
      tr = tr0 ++ call_events nb iters final ∧
      (∀ pc ∈ iters, is_64kb_boundary_aligned (align_payload_to_64kb pc.1) nb = 0) ∧
      ((final = [Event.malloc ((nb + 15) % 2 ^ 32) r] ∧
          is_64kb_boundary_aligned (align_payload_to_64kb r) nb ≠ 0 ∧
          iters.length < MAX_PROBED_ALLOCS) ∨
       (final = [] ∧ r = FarPtr.null ∧ iters.length = MAX_PROBED_ALLOCS)) := by
  unfold faralloc_inside_64kb_page at h
  split at h
  · cases h
  · rename_i f hf
    have hb := probe_loop_bound _ nb fuel _ f hf (by simp)
    obtain ⟨iters, final, h1, h2, h3, h4, h5⟩ := probe_loop_shape A nb fuel _ f hf
    simp only [Nat.zero_add, List.range_zero, List.map_nil, List.nil_append] at h1 h2 h3
    have htr : tr = (release_loop (logged A) f.consumed_page_ptrs f.num_consumed_pages
        f.heap).2 := by
      have := congrArg (fun o => o.map (fun x => x.2.2)) h
      simpa using this.symm
    have hr : r = f.ptr := by
      have := congrArg (fun o => o.map (fun x => x.1)) h
      simpa using this.symm
    refine ⟨iters, final, ?_, h4, ?_⟩
    · rw [htr, release_loop_shape, h1, h3, call_events]
      simp [List.append_assoc]
    · rcases h5 with ⟨a, b, c⟩ | ⟨a, b, c⟩
      · exact Or.inl ⟨hr ▸ a, hr ▸ b, by omega⟩
      · have hlen : iters.length = MAX_PROBED_ALLOCS := by omega
        refine Or.inr ⟨a, ?_, hlen⟩
        rw [hr]
        apply c
        intro hnil
        rw [hnil] at hlen
        exact absurd hlen (by decide)

/-! ## Live blocks along a sequence of calls -/

theorem live_after_nil (L : Finset FarPtr) : live_after L [] = L := rfl

theorem live_after_cons (L : Finset FarPtr) (e : Event) (tr : List Event) :
    live_after L (e :: tr) = live_after (live_step L e) tr := rfl

theorem live_after_append (L : Finset FarPtr) (t1 t2 : List Event) :
    live_after L (t1 ++ t2) = live_after (live_after L t1) t2 := by
  simp [live_after, List.foldl_append]

theorem live_step_subset {L M : Finset FarPtr} (h : L ⊆ M) (e : Event) :
    live_step L e ⊆ live_step M e := by
  cases e with
  | malloc n p =>
    simp only [live_step]
    split
    · exact h
    · exact Finset.insert_subset_insert p h
  | free p =>
    simp only [live_step]
    split
    · exact h
    · exact Finset.erase_subset_erase p h

theorem Fresh_append (t1 t2 : List Event) :
    ∀ L : Finset FarPtr, Fresh L (t1 ++ t2) ↔ Fresh L t1 ∧ Fresh (live_after L t1) t2 := by
  induction t1 with
  | nil => intro L; simp [Fresh, live_after_nil]
  | cons e t1 ih =>
    intro L
    cases e with
    | malloc n p =>
      rw [List.cons_append]
      simp only [Fresh, live_after_cons]
      rw [ih, and_assoc]
    | free p =>
      rw [List.cons_append]
      simp only [Fresh, live_after_cons]
      rw [ih]

theorem Fresh_subset (tr : List Event) :
    ∀ L M : Finset FarPtr, L ⊆ M → Fresh M tr → Fresh L tr := by
  induction tr with
  | nil => intro L M _ _; trivial
  | cons e tr ih =>
    intro L M hLM h
    cases e with
    | malloc n p =>
      simp only [Fresh] at h ⊢
      refine ⟨?_, ih _ _ (live_step_subset hLM _) h.2⟩
      rcases h.1 with h1 | h1
      · exact Or.inl h1
      · exact Or.inr (fun hp => h1 (hLM hp))
    | free p =>
      simp only [Fresh] at h ⊢
      exact ih _ _ (live_step_subset hLM _) h

theorem SafeFrees_append (t1 t2 : List Event) :
    ∀ L own : Finset FarPtr, SafeFrees L own (t1 ++ t2) ↔
      SafeFrees L own t1 ∧ SafeFrees (live_after L t1) (live_after own t1) t2 := by
  induction t1 with
  | nil => intro L own; simp [SafeFrees, live_after_nil]
  | cons e t1 ih =>
    intro L own
    cases e with
    | malloc n p =>
      rw [List.cons_append]
      simp only [SafeFrees, live_after_cons]
      rw [ih]
    | free p =>
      rw [List.cons_append]
      simp only [SafeFrees, live_after_cons]
      rw [ih, and_assoc]

theorem call_events_cons (nb : Nat) (p c : FarPtr) (rest : List (FarPtr × FarPtr))
    (final : List Event) :
    call_events nb ((p, c) :: rest) final
      = iter_events nb (p, c) ++ (call_events nb rest final ++ [Event.free c]) := by
  simp [call_events, release_events, List.append_assoc]

theorem probe_ne_null_of_rejected (p : FarPtr) (nb : Nat)
    (h : is_64kb_boundary_aligned (align_payload_to_64kb p) nb = 0) : p ≠ FarPtr.null := by
  rintro rfl
  exact is_64kb_boundary_aligned_null nb h

theorem live_step_malloc_null (L : Finset FarPtr) (n : Nat) :
    live_step L (Event.malloc n FarPtr.null) = L := by simp [live_step]

theorem live_step_malloc_ne (L : Finset FarPtr) (n : Nat) {p : FarPtr} (h : p ≠ FarPtr.null) :
    live_step L (Event.malloc n p) = insert p L := by simp [live_step, h]

theorem live_step_free_null (L : Finset FarPtr) :
    live_step L (Event.free FarPtr.null) = L := by simp [live_step]

theorem live_step_free_ne (L : Finset FarPtr) {p : FarPtr} (h : p ≠ FarPtr.null) :
    live_step L (Event.free p) = L.erase p := by simp [live_step, h]

/-- One failed iteration against a well-behaved allocator: after the probe request, its
release and the consuming request, the live blocks are the former ones plus the
consuming block. -/
theorem iter_events_live (nb : Nat) (p c : FarPtr) (L : Finset FarPtr) (tr : List Event)
    (hp : p ≠ FarPtr.null) (h : Fresh L (iter_events nb (p, c) ++ tr)) :
    p ∉ L ∧ (c = FarPtr.null ∨ c ∉ L) ∧
      live_after L (iter_events nb (p, c)) = live_step L (Event.malloc (consume_size p) c) ∧
      Fresh (live_step L (Event.malloc (consume_size p) c)) tr := by
  simp only [iter_events, List.cons_append, List.nil_append, Fresh] at h
  obtain ⟨h1, h2, h3⟩ := h
  have hpL : p ∉ L := h1.resolve_left hp
  have hL : live_step (live_step L (Event.malloc ((nb + 15) % 2 ^ 32) p)) (Event.free p) = L := by
    rw [live_step_malloc_ne L _ hp, live_step_free_ne _ hp, Finset.erase_insert hpL]
  rw [hL] at h2 h3
  refine ⟨hpL, h2, ?_, h3⟩
  simp only [iter_events, live_after_cons, live_after_nil]
  rw [hL]

/-- The live blocks after a whole call against a well-behaved allocator are those after
its last iteration alone: every consuming block has been released again. -/
theorem live_call_events (nb n : Nat) (r : FarPtr) (final : List Event)
    (hfinal : final = [] ∨ final = [Event.malloc n r]) :
    ∀ (iters : List (FarPtr × FarPtr)) (L : Finset FarPtr),
      (∀ pc ∈ iters, pc.1 ≠ FarPtr.null) → Fresh L (call_events nb iters final) →
      live_after L (call_events nb iters final) = live_after L final ∧
      (final = [Event.malloc n r] → r = FarPtr.null ∨ r ∉ L) := by
  intro iters
  induction iters with
  | nil =>
    intro L _ hF
    have he : call_events nb [] final = final := by simp [call_events, release_events]
    rw [he] at hF ⊢
    refine ⟨rfl, fun hf => ?_⟩
    rw [hf] at hF
    exact hF.1
  | cons pc rest ih =>
    obtain ⟨p, c⟩ := pc
    intro L hne hF
    rw [call_events_cons] at hF ⊢
    have hp : p ≠ FarPtr.null := hne (p, c) (List.mem_cons_self _ _)
    obtain ⟨_, hc, hlive, hF'⟩ := iter_events_live nb p c L _ hp hF
    rw [Fresh_append] at hF'
    obtain ⟨ih1, ih2⟩ := ih (live_step L (Event.malloc (consume_size p) c))
      (fun pc hpc => hne pc (List.mem_cons_of_mem _ hpc)) hF'.1
    rw [live_after_append, live_after_append, hlive, ih1]
    simp only [live_after_cons, live_after_nil]
    by_cases hcn : c = FarPtr.null
    · subst hcn
      rw [live_step_malloc_null] at ih2 ⊢
      rw [live_step_free_null]
      exact ⟨rfl, ih2⟩
    · have hcL : c ∉ L := hc.resolve_left hcn
      rw [live_step_malloc_ne L _ hcn] at ih2 ⊢
      rw [live_step_free_ne _ hcn]
      rcases hfinal with hf | hf
      · subst hf
        refine ⟨?_, fun hf => by cases hf⟩
        rw [live_after_nil, live_after_nil, Finset.erase_insert hcL]
      · subst hf
        simp only [live_after_cons, live_after_nil]
        by_cases hrn : r = FarPtr.null
        · subst hrn
          rw [live_step_malloc_null, live_step_malloc_null, Finset.erase_insert hcL]
          exact ⟨rfl, fun _ => Or.inl rfl⟩
        · have hr : r ∉ insert c L := (ih2 rfl).resolve_left hrn
          rw [Finset.mem_insert, not_or] at hr
          rw [live_step_malloc_ne _ _ hrn, live_step_malloc_ne _ _ hrn,
            Finset.erase_insert_of_ne (fun h => hr.1 h), Finset.erase_insert hcL]
          exact ⟨rfl, fun _ => Or.inr hr.2⟩

theorem subset_live_step_malloc (L : Finset FarPtr) (n : Nat) (p : FarPtr) :
    L ⊆ live_step L (Event.malloc n p) := by
  simp only [live_step]
  split
  · exact Finset.Subset.refl L
  · exact Finset.subset_insert p L

theorem mem_live_after_final (n : Nat) (r c : FarPtr) (final : List Event)
    (hfinal : final = [] ∨ final = [Event.malloc n r]) (L : Finset FarPtr) (hc : c ∈ L) :
    c ∈ live_after L final := by
  rcases hfinal with hf | hf
  · subst hf
    exact hc
  · subst hf
    exact subset_live_step_malloc L n r hc

/-- Every release of a whole call against a well-behaved allocator is passed a block
that is live and that the call itself obtained and still holds, or null. -/
theorem safe_call_events (nb n : Nat) (r : FarPtr) (final : List Event)
    (hfinal : final = [] ∨ final = [Event.malloc n r]) :
    ∀ (iters : List (FarPtr × FarPtr)) (L own : Finset FarPtr), own ⊆ L →
      (∀ pc ∈ iters, pc.1 ≠ FarPtr.null) → Fresh L (call_events nb iters final) →
      SafeFrees L own (call_events nb iters final) := by
  intro iters
  induction iters with
  | nil =>
    intro L own _ _ _
    have he : call_events nb [] final = final := by simp [call_events, release_events]
    rw [he]
    rcases hfinal with hf | hf <;> subst hf <;> simp [SafeFrees]
  | cons pc rest ih =>
    obtain ⟨p, c⟩ := pc
    intro L own hsub hne hF
    have hne' : ∀ pc ∈ rest, pc.1 ≠ FarPtr.null :=
      fun pc hpc => hne pc (List.mem_cons_of_mem _ hpc)
    rw [call_events_cons] at hF ⊢
    have hp : p ≠ FarPtr.null := hne (p, c) (List.mem_cons_self _ _)
    have hFo := Fresh_subset _ own L hsub hF
    obtain ⟨_, _, hlive, hF'⟩ := iter_events_live nb p c L _ hp hF
    obtain ⟨_, _, hlive', hFo'⟩ := iter_events_live nb p c own _ hp hFo
    rw [Fresh_append] at hF' hFo'
    have hsub' := live_step_subset hsub (Event.malloc (consume_size p) c)
    rw [SafeFrees_append, hlive, hlive', SafeFrees_append]
    refine ⟨?_, ih _ _ hsub' hne' hF'.1, ?_⟩
    · simp only [iter_events, SafeFrees, and_true]
      rw [live_step_malloc_ne _ _ hp, live_step_malloc_ne _ _ hp]
      exact Or.inr ⟨Finset.mem_insert_self _ _, Finset.mem_insert_self _ _⟩
    · simp only [SafeFrees, and_true]
      by_cases hcn : c = FarPtr.null
      · exact Or.inl hcn
      · right
        rw [(live_call_events nb n r final hfinal rest _ hne' hF'.1).1,
          (live_call_events nb n r final hfinal rest _ hne' hFo'.1).1,
          live_step_malloc_ne _ _ hcn, live_step_malloc_ne _ _ hcn]
        exact ⟨mem_live_after_final n r c final hfinal _ (Finset.mem_insert_self _ _),
          mem_live_after_final n r c final hfinal _ (Finset.mem_insert_self _ _)⟩

/-! ## One call, start to end -/

/-- With fuel for 256 iterations the call returns, and its recorded calls are: `k` failed
iterations, the last iteration (an accepted probe whose answer is returned, with
`k < 256`, or nothing, with `k = 256` and null returned), and the `k` releases. -/
theorem faralloc_run {σ : Type} (A : Allocator σ) (fuel : Nat) (ptr0 : FarPtr)
    (slots0 : Nat → FarPtr) (s : σ) (nb : Nat) (hfuel : MAX_PROBED_ALLOCS ≤ fuel) :
    ∃ (r : FarPtr) (s' : σ) (iters : List (FarPtr × FarPtr)) (last : Option FarPtr),
      faralloc_inside_64kb_page (logged A) fuel ptr0 slots0 (s, []) nb
        = some (r, (s', call_events nb iters (final_events nb last))) ∧
      (∀ pc ∈ iters, is_64kb_boundary_aligned (align_payload_to_64kb pc.1) nb = 0) ∧
      ((last = some r ∧ is_64kb_boundary_aligned (align_payload_to_64kb r) nb ≠ 0 ∧
          iters.length < MAX_PROBED_ALLOCS) ∨
       (last = none ∧ r = FarPtr.null ∧ iters.length = MAX_PROBED_ALLOCS)) := by
  obtain ⟨r, ⟨s', tr⟩, h⟩ := faralloc_total (logged A) fuel ptr0 slots0 (s, []) nb hfuel
  obtain ⟨iters, final, h1, h2, h3⟩ := faralloc_shape A fuel ptr0 slots0 s [] nb r s' tr h
  rw [List.nil_append] at h1
  rcases h3 with ⟨a, b, c⟩ | ⟨a, b, c⟩
  · refine ⟨r, s', iters, some r, ?_, h2, Or.inl ⟨rfl, b, c⟩⟩
    rw [h, h1, a]
    rfl
  · refine ⟨r, s', iters, none, ?_, h2, Or.inr ⟨rfl, b, c⟩⟩
    rw [h, h1, a]
    rfl

theorem final_events_cases (nb : Nat) (last : Option FarPtr) (r : FarPtr)
    (h : last = some r ∨ last = none) :
    final_events nb last = [] ∨ final_events nb last = [Event.malloc ((nb + 15) % 2 ^ 32) r] := by
  rcases h with h | h
  · subst h
    exact Or.inr rfl
  · subst h
    exact Or.inl rfl

/-- C1: for every size `num_bytes` and every allocator (any answers, null included), the
call returns, and if the returned pointer `r` is not null then
`is_64kb_boundary_aligned (align_payload_to_64kb r) num_bytes` is nonzero. -/
theorem success_implies_containment {σ : Type} (A : Allocator σ) (fuel : Nat)
    (ptr0 : FarPtr) (slots0 : Nat → FarPtr) (heap : σ) (num_bytes : Nat)
    (hfuel : MAX_PROBED_ALLOCS ≤ fuel) :
    ∃ (r : FarPtr) (heap' : σ),
      faralloc_inside_64kb_page A fuel ptr0 slots0 heap num_bytes = some (r, heap') ∧
      (r ≠ FarPtr.null →
        is_64kb_boundary_aligned (align_payload_to_64kb r) num_bytes ≠ 0) := by
  obtain ⟨r, heap', h⟩ := faralloc_total A fuel ptr0 slots0 heap num_bytes hfuel
  refine ⟨r, heap', h, fun hr => ?_⟩
  exact (faralloc_exit A fuel ptr0 slots0 heap num_bytes r heap' h).resolve_right hr

/-- C1 for the driver's request of 65536 bytes on the first-fit run: the second probe
`0FFF:0004` is returned and its aligned pointer passes the test. -/
theorem success_implies_containment_witness :
    MAX_PROBED_ALLOCS ≤ 256 ∧
    faralloc_inside_64kb_page (scripted first_fit_answers) 256 FarPtr.null
      (fun _ => FarPtr.null) 0 65536 = some (MK_FP 4095 4, 3) ∧
    MK_FP 4095 4 ≠ FarPtr.null ∧
    is_64kb_boundary_aligned (align_payload_to_64kb (MK_FP 4095 4)) 65536 ≠ 0 := by
  have hc : faralloc_inside_64kb_page (scripted first_fit_answers) 256 FarPtr.null
      (fun _ => FarPtr.null) 0 65536 = some (MK_FP 4095 4, 3) := by decide
  obtain ⟨r, heap', hrun, h⟩ := success_implies_containment (scripted first_fit_answers)
    256 FarPtr.null (fun _ => FarPtr.null) 0 65536 (by decide)
  rw [hc] at hrun
  simp only [Option.some.injEq, Prod.mk.injEq] at hrun
  obtain ⟨rfl, rfl⟩ := hrun
  exact ⟨by decide, hc, by decide, h (by decide)⟩

/-- C7: for every `num_bytes >= 65536` and every allocator, the call returns, and if the
returned pointer `r` is not null then the linear address of `align_payload_to_64kb r` is
a multiple of 65536. -/
theorem multi_bank_boundary_aligned {σ : Type} (A : Allocator σ) (fuel : Nat)
    (ptr0 : FarPtr) (slots0 : Nat → FarPtr) (heap : σ) (num_bytes : Nat)
    (hfuel : MAX_PROBED_ALLOCS ≤ fuel) (hnb : 65536 ≤ num_bytes) :
    ∃ (r : FarPtr) (heap' : σ),
      faralloc_inside_64kb_page A fuel ptr0 slots0 heap num_bytes = some (r, heap') ∧
      (r ≠ FarPtr.null →
        65536 ∣ calculate_linear_address (align_payload_to_64kb r)) := by
  obtain ⟨r, heap', h⟩ := faralloc_total A fuel ptr0 slots0 heap num_bytes hfuel
  refine ⟨r, heap', h, fun hr => ?_⟩
  have ht := (faralloc_exit A fuel ptr0 slots0 heap num_bytes r heap' h).resolve_right hr
  rw [is_64kb_boundary_aligned_ne_zero] at ht
  rcases ht with ⟨_, h0⟩ | ⟨hlt, _⟩
  · exact Nat.dvd_of_mod_eq_zero h0
  · omega

/-- C7 for a request of 131072 bytes on the first-fit run: the returned block
`0FFF:0004` has its aligned pointer at linear address 65536. -/
theorem multi_bank_boundary_aligned_witness :
    (MAX_PROBED_ALLOCS ≤ 256 ∧ 65536 ≤ 131072) ∧
    faralloc_inside_64kb_page (scripted first_fit_answers) 256 FarPtr.null
      (fun _ => FarPtr.null) 0 131072 = some (MK_FP 4095 4, 3) ∧
    MK_FP 4095 4 ≠ FarPtr.null ∧
    calculate_linear_address (align_payload_to_64kb (MK_FP 4095 4)) = 65536 ∧
    65536 ∣ calculate_linear_address (align_payload_to_64kb (MK_FP 4095 4)) := by
  have hc : faralloc_inside_64kb_page (scripted first_fit_answers) 256 FarPtr.null
      (fun _ => FarPtr.null) 0 131072 = some (MK_FP 4095 4, 3) := by decide
  obtain ⟨r, heap', hrun, h⟩ := multi_bank_boundary_aligned (scripted first_fit_answers)
    256 FarPtr.null (fun _ => FarPtr.null) 0 131072 (by decide) (by decide)
  rw [hc] at hrun
  simp only [Option.some.injEq, Prod.mk.injEq] at hrun
  obtain ⟨rfl, rfl⟩ := hrun
  exact ⟨⟨by decide, by decide⟩, hc, by decide, by decide, h (by decide)⟩

theorem rejected_ne_null (nb : Nat) (iters : List (FarPtr × FarPtr))
    (h : ∀ pc ∈ iters, is_64kb_boundary_aligned (align_payload_to_64kb pc.1) nb = 0) :
    ∀ pc ∈ iters, pc.1 ≠ FarPtr.null :=
  fun pc hpc => probe_ne_null_of_rejected pc.1 nb (h pc hpc)

/-- C3: with the allocator as explicit state (the set `L` of live blocks; a request is
answered null or a block that is not live, a release of a live block removes it, a
release of null changes nothing), for every `num_bytes` and every allocator the call
returns, and if the returned pointer `r` is not null then the live blocks after the call
are those before plus exactly `r`, which was not live before: the count grows by one. -/
theorem no_leak_on_success {σ : Type} (A : Allocator σ) (fuel : Nat) (ptr0 : FarPtr)
    (slots0 : Nat → FarPtr) (s : σ) (num_bytes : Nat) (L : Finset FarPtr)
    (hfuel : MAX_PROBED_ALLOCS ≤ fuel) :
    ∃ (r : FarPtr) (s' : σ) (tr : List Event),
      faralloc_inside_64kb_page (logged A) fuel ptr0 slots0 (s, []) num_bytes
        = some (r, (s', tr)) ∧
      (Fresh L tr → r ≠ FarPtr.null →
        live_after L tr = insert r L ∧ r ∉ L ∧ (live_after L tr).card = L.card + 1) := by
  obtain ⟨r, s', iters, last, hrun, hrej, hlast⟩ :=
    faralloc_run A fuel ptr0 slots0 s num_bytes hfuel
  refine ⟨r, s', _, hrun, fun hF hr => ?_⟩
  rcases hlast with ⟨hl, _, _⟩ | ⟨_, hnull, _⟩
  · subst hl
    obtain ⟨h1, h2⟩ := live_call_events num_bytes ((num_bytes + 15) % 2 ^ 32) r
      (final_events num_bytes (some r)) (Or.inr rfl) iters L
      (rejected_ne_null num_bytes iters hrej) hF
    have hrL : r ∉ L := (h2 rfl).resolve_left hr
    have hlive : live_after L (call_events num_bytes iters (final_events num_bytes (some r)))
        = insert r L := by
      rw [h1]
      simp only [final_events, live_after_cons, live_after_nil]
      exact live_step_malloc_ne L _ hr
    exact ⟨hlive, hrL, by rw [hlive, Finset.card_insert_of_not_mem hrL]⟩
  · exact absurd hnull hr

/-- C3 on the first-fit run for 65536 bytes, starting with no live block: the calls are
probe, release, consuming request, accepted probe, release of the consuming block, and
the only live block afterwards is the returned one. -/
theorem no_leak_on_success_witness :
    MAX_PROBED_ALLOCS ≤ 256 ∧
    faralloc_inside_64kb_page (logged (scripted first_fit_answers)) 256 FarPtr.null
      (fun _ => FarPtr.null) (0, []) 65536
      = some (MK_FP 4095 4, (3, first_fit_calls 65536)) ∧
    Fresh ∅ (first_fit_calls 65536) ∧
    MK_FP 4095 4 ≠ FarPtr.null ∧
    live_after ∅ (first_fit_calls 65536) = insert (MK_FP 4095 4) ∅ ∧
    MK_FP 4095 4 ∉ (∅ : Finset FarPtr) ∧
    (live_after ∅ (first_fit_calls 65536)).card = (∅ : Finset FarPtr).card + 1 := by
  have hc : faralloc_inside_64kb_page (logged (scripted first_fit_answers)) 256 FarPtr.null
      (fun _ => FarPtr.null) (0, []) 65536
      = some (MK_FP 4095 4, (3, first_fit_calls 65536)) := by decide
  obtain ⟨r, s', tr, hrun, h⟩ := no_leak_on_success (scripted first_fit_answers) 256
    FarPtr.null (fun _ => FarPtr.null) 0 65536 ∅ (by decide)
  rw [hc] at hrun
  simp only [Option.some.injEq, Prod.mk.injEq] at hrun
  obtain ⟨rfl, rfl, rfl⟩ := hrun
  exact ⟨by decide, hc, by decide, by decide, h (by decide) (by decide)⟩

/-- C4: in the same explicit allocator model, for every `num_bytes` and every allocator
the call returns, and if it returns null then the set of live blocks after the call is
the set before the call. -/
theorem no_leak_on_failure {σ : Type} (A : Allocator σ) (fuel : Nat) (ptr0 : FarPtr)
    (slots0 : Nat → FarPtr) (s : σ) (num_bytes : Nat) (L : Finset FarPtr)
    (hfuel : MAX_PROBED_ALLOCS ≤ fuel) :
    ∃ (r : FarPtr) (s' : σ) (tr : List Event),
      faralloc_inside_64kb_page (logged A) fuel ptr0 slots0 (s, []) num_bytes
        = some (r, (s', tr)) ∧
      (Fresh L tr → r = FarPtr.null →
        live_after L tr = L ∧ (live_after L tr).card = L.card) := by
  obtain ⟨r, s', iters, last, hrun, hrej, hlast⟩ :=
    faralloc_run A fuel ptr0 slots0 s num_bytes hfuel
  refine ⟨r, s', _, hrun, fun hF hr => ?_⟩
  have hcases : last = some r ∨ last = none := by
    rcases hlast with ⟨hl, _, _⟩ | ⟨hl, _, _⟩
    · exact Or.inl hl
    · exact Or.inr hl
  have hlive : live_after L (call_events num_bytes iters (final_events num_bytes last)) = L := by
    rw [(live_call_events num_bytes ((num_bytes + 15) % 2 ^ 32) r
      (final_events num_bytes last) (final_events_cases num_bytes last r hcases) iters L
      (rejected_ne_null num_bytes iters hrej) hF).1]
    rcases hcases with hl | hl
    · subst hl
      subst hr
      simp only [final_events, live_after_cons, live_after_nil]
      exact live_step_malloc_null L _
    · subst hl
      rfl
  exact ⟨hlive, by rw [hlive]⟩

/-- C4 on the run whose second probe is refused, starting with the live block
`0100:0004`: the calls are probe, release, consuming request, refused probe, release of
the consuming block; null is returned and the live set is as before. -/
theorem no_leak_on_failure_witness :
    MAX_PROBED_ALLOCS ≤ 256 ∧
    faralloc_inside_64kb_page (logged (scripted exhausted_answers)) 256 FarPtr.null
      (fun _ => FarPtr.null) (0, []) 65536
      = some (FarPtr.null, (3, exhausted_calls 65536)) ∧
    Fresh {MK_FP 256 4} (exhausted_calls 65536) ∧
    live_after {MK_FP 256 4} (exhausted_calls 65536) = {MK_FP 256 4} ∧
    (live_after {MK_FP 256 4} (exhausted_calls 65536)).card
      = ({MK_FP 256 4} : Finset FarPtr).card := by
  have hc : faralloc_inside_64kb_page (logged (scripted exhausted_answers)) 256 FarPtr.null
      (fun _ => FarPtr.null) (0, []) 65536
      = some (FarPtr.null, (3, exhausted_calls 65536)) := by decide
  obtain ⟨r, s', tr, hrun, h⟩ := no_leak_on_failure (scripted exhausted_answers) 256
    FarPtr.null (fun _ => FarPtr.null) 0 65536 {MK_FP 256 4} (by decide)
  rw [hc] at hrun
  simp only [Option.some.injEq, Prod.mk.injEq] at hrun
  obtain ⟨rfl, rfl, rfl⟩ := hrun
  exact ⟨by decide, hc, by decide, h (by decide) rfl⟩

/-- C10: in the explicit allocator model, for every `num_bytes` and every allocator the
call returns, and every release it makes is passed null or a block that is live at that
moment and that this call obtained from a request and has not released since; so no
block is released twice and only request answers, never a derived pointer, are released. -/
theorem releases_are_safe {σ : Type} (A : Allocator σ) (fuel : Nat) (ptr0 : FarPtr)
    (slots0 : Nat → FarPtr) (s : σ) (num_bytes : Nat) (L : Finset FarPtr)
    (hfuel : MAX_PROBED_ALLOCS ≤ fuel) :
    ∃ (r : FarPtr) (s' : σ) (tr : List Event),
      faralloc_inside_64kb_page (logged A) fuel ptr0 slots0 (s, []) num_bytes
        = some (r, (s', tr)) ∧
      (Fresh L tr → SafeFrees L ∅ tr) := by
  obtain ⟨r, s', iters, last, hrun, hrej, hlast⟩ :=
    faralloc_run A fuel ptr0 slots0 s num_bytes hfuel
  refine ⟨r, s', _, hrun, fun hF => ?_⟩
  have hcases : last = some r ∨ last = none := by
    rcases hlast with ⟨hl, _, _⟩ | ⟨hl, _, _⟩
    · exact Or.inl hl
    · exact Or.inr hl
  exact safe_call_events num_bytes ((num_bytes + 15) % 2 ^ 32) r
    (final_events num_bytes last) (final_events_cases num_bytes last r hcases) iters L ∅
    (Finset.empty_subset L) (rejected_ne_null num_bytes iters hrej) hF

/-- C10 on the first-fit run for 40000 bytes with the live block `0100:0004`: the two
releases are passed the probe block and the consuming block, each live and held. -/
theorem releases_are_safe_witness :
    MAX_PROBED_ALLOCS ≤ 256 ∧
    faralloc_inside_64kb_page (logged (scripted first_fit_answers)) 256 FarPtr.null
      (fun _ => FarPtr.null) (0, []) 40000
      = some (MK_FP 4095 4, (3, first_fit_calls 40000)) ∧
    Fresh {MK_FP 256 4} (first_fit_calls 40000) ∧
    SafeFrees {MK_FP 256 4} ∅ (first_fit_calls 40000) := by
  have hc : faralloc_inside_64kb_page (logged (scripted first_fit_answers)) 256 FarPtr.null
      (fun _ => FarPtr.null) (0, []) 40000
      = some (MK_FP 4095 4, (3, first_fit_calls 40000)) := by decide
  obtain ⟨r, s', tr, hrun, h⟩ := releases_are_safe (scripted first_fit_answers) 256
    FarPtr.null (fun _ => FarPtr.null) 0 40000 {MK_FP 256 4} (by decide)
  rw [hc] at hrun
  simp only [Option.some.injEq, Prod.mk.injEq] at hrun
  obtain ⟨rfl, rfl, rfl⟩ := hrun
  exact ⟨by decide, hc, by decide, h (by decide)⟩

/-- C5: for every `num_bytes` and every allocator the call returns a pointer (failure is
the null pointer), and with the probe answers read off the recorded calls: the result is
null exactly when some probe request was refused (answered null) or there were 256
probe answers that all failed the containment test; a non-null result is the last probe
answer; and the containment test accepts the aligned null pointer for every size. -/
theorem failure_iff_refused_or_exhausted {σ : Type} (A : Allocator σ) (fuel : Nat)
    (ptr0 : FarPtr) (slots0 : Nat → FarPtr) (s : σ) (num_bytes : Nat)
    (hfuel : MAX_PROBED_ALLOCS ≤ fuel) :
    ∃ (r : FarPtr) (s' : σ) (iters : List (FarPtr × FarPtr)) (last : Option FarPtr),
      faralloc_inside_64kb_page (logged A) fuel ptr0 slots0 (s, []) num_bytes
        = some (r, (s', call_events num_bytes iters (final_events num_bytes last))) ∧
      (r = FarPtr.null ↔
        (FarPtr.null ∈ probe_answers iters last ∨
          ((probe_answers iters last).length = MAX_PROBED_ALLOCS ∧
            ∀ p ∈ probe_answers iters last,
              is_64kb_boundary_aligned (align_payload_to_64kb p) num_bytes = 0))) ∧
      (r ≠ FarPtr.null → (probe_answers iters last).getLast? = some r) ∧
      (∀ size : Nat,
        is_64kb_boundary_aligned (align_payload_to_64kb FarPtr.null) size ≠ 0) := by
  obtain ⟨r, s', iters, last, hrun, hrej, hlast⟩ :=
    faralloc_run A fuel ptr0 slots0 s num_bytes hfuel
  refine ⟨r, s', iters, last, hrun, ?_, ?_, is_64kb_boundary_aligned_null⟩
  · rcases hlast with ⟨hl, hacc, hlen⟩ | ⟨hl, hnull, hlen⟩
    · subst hl
      constructor
      · intro hr
        left
        simp [probe_answers, hr]
      · rintro (hmem | ⟨_, hall⟩)
        · simp only [probe_answers, Option.toList, List.mem_append, List.mem_map,
            List.mem_singleton] at hmem
          rcases hmem with ⟨pc, hpc, hpn⟩ | hmem
          · exact absurd hpn (rejected_ne_null num_bytes iters hrej pc hpc)
          · exact hmem.symm
        · exact absurd (hall r (by simp [probe_answers])) hacc
    · subst hl
      constructor
      · intro _
        right
        refine ⟨by simpa [probe_answers] using hlen, ?_⟩
        intro p hp
        simp only [probe_answers, Option.toList, List.append_nil, List.mem_map] at hp
        obtain ⟨pc, hpc, rfl⟩ := hp
        exact hrej pc hpc
      · intro _
        exact hnull
  · intro hr
    rcases hlast with ⟨hl, _, _⟩ | ⟨_, hnull, _⟩
    · subst hl
      simp [probe_answers]
    · exact absurd hnull hr

/-- C5 on the run whose second probe is refused: the probe answers are `0800:0004`
(rejected) and null, and null is returned. -/
theorem failure_iff_refused_or_exhausted_witness :
    MAX_PROBED_ALLOCS ≤ 256 ∧
    faralloc_inside_64kb_page (logged (scripted exhausted_answers)) 256 FarPtr.null
      (fun _ => FarPtr.null) (0, []) 65536
      = some (FarPtr.null, (3, call_events 65536 [(MK_FP 2048 4, MK_FP 2048 4)]
          (final_events 65536 (some FarPtr.null)))) ∧
    probe_answers [(MK_FP 2048 4, MK_FP 2048 4)] (some FarPtr.null)
      = [MK_FP 2048 4, FarPtr.null] ∧
    ∃ (r : FarPtr) (s' : Nat) (iters : List (FarPtr × FarPtr)) (last : Option FarPtr),
      faralloc_inside_64kb_page (logged (scripted exhausted_answers)) 256 FarPtr.null
        (fun _ => FarPtr.null) (0, []) 65536
        = some (r, (s', call_events 65536 iters (final_events 65536 last))) ∧
      (r = FarPtr.null ↔
        (FarPtr.null ∈ probe_answers iters last ∨
          ((probe_answers iters last).length = MAX_PROBED_ALLOCS ∧
            ∀ p ∈ probe_answers iters last,
              is_64kb_boundary_aligned (align_payload_to_64kb p) 65536 = 0))) ∧
      (r ≠ FarPtr.null → (probe_answers iters last).getLast? = some r) ∧
      (∀ size : Nat,
        is_64kb_boundary_aligned (align_payload_to_64kb FarPtr.null) size ≠ 0) :=
  ⟨by decide, by decide, by decide,
    failure_iff_refused_or_exhausted (scripted exhausted_answers) 256 FarPtr.null
      (fun _ => FarPtr.null) 0 65536 (by decide)⟩

/-- C6: for every `num_bytes` and every allocator, adversarial ones included, fuel for
256 executions of the loop body is enough for the call to return; no store goes outside
the 256 slots (the first loop ends normally with its counter at most 256, every store
being at a smaller counter value); and the recorded calls hold at most 256 probe
requests and at most 256 consuming requests. -/
theorem terminates_within_bound {σ : Type} (A : Allocator σ) (fuel : Nat)
    (ptr0 : FarPtr) (slots0 : Nat → FarPtr) (s : σ) (num_bytes : Nat)
    (hfuel : MAX_PROBED_ALLOCS ≤ fuel) :
    ∃ (r : FarPtr) (s' : σ) (iters : List (FarPtr × FarPtr)) (last : Option FarPtr),
      faralloc_inside_64kb_page (logged A) fuel ptr0 slots0 (s, []) num_bytes
        = some (r, (s', call_events num_bytes iters (final_events num_bytes last))) ∧
      (∃ f, probe_loop (logged A) num_bytes fuel
          { heap := (s, []), ptr := ptr0, consumed_page_ptrs := slots0,
            num_consumed_pages := 0 } = some f ∧
        f.num_consumed_pages = iters.length ∧ f.num_consumed_pages ≤ MAX_PROBED_ALLOCS) ∧
      (probe_answers iters last).length ≤ MAX_PROBED_ALLOCS ∧
      iters.length ≤ MAX_PROBED_ALLOCS := by
  obtain ⟨r, s', iters, last, hrun, _, hlast⟩ :=
    faralloc_run A fuel ptr0 slots0 s num_bytes hfuel
  have hlen : iters.length ≤ MAX_PROBED_ALLOCS := by
    rcases hlast with ⟨_, _, h⟩ | ⟨_, _, h⟩ <;> omega
  refine ⟨r, s', iters, last, hrun, ?_, ?_, hlen⟩
  · obtain ⟨f, hf⟩ := probe_loop_total (logged A) num_bytes fuel
      { heap := (s, []), ptr := ptr0, consumed_page_ptrs := slots0, num_consumed_pages := 0 }
      (by simpa using hfuel)
    refine ⟨f, hf, ?_, probe_loop_bound _ num_bytes fuel _ f hf (by simp)⟩
    obtain ⟨iters', final', h1, h2, h3, _, h5⟩ := probe_loop_shape A num_bytes fuel _ f hf
    simp only [Nat.zero_add, List.range_zero, List.map_nil, List.nil_append] at h1 h2 h3
    have hrun' := hrun
    unfold faralloc_inside_64kb_page at hrun'
    rw [hf] at hrun'
    have htr := congrArg (fun o => o.map (fun x => x.2.2)) hrun'
    simp only [Option.map_some'] at htr
    rw [release_loop_shape, h1, h3] at htr
    have hcount := congrArg List.length (Option.some.inj htr)
    have hfin : final'.length ≤ 1 := by
      rcases h5 with ⟨a, _, _⟩ | ⟨a, _, _⟩ <;> simp [a]
    have hlast' : (final_events num_bytes last).length ≤ 1 := by
      cases last <;> simp [final_events]
    have hflat : ∀ l : List (FarPtr × FarPtr),
        (l.flatMap (iter_events num_bytes)).length = 3 * l.length := by
      intro l
      induction l with
      | nil => rfl
      | cons a l ih => simp [List.flatMap_cons, iter_events, ih]; omega
    simp only [call_events, release_events, List.length_append, List.length_map,
      List.length_reverse, hflat, List.nil_append] at hcount
    omega
  · rcases hlast with ⟨hl, _, h⟩ | ⟨hl, _, h⟩
    · subst hl
      simp [probe_answers]
      omega
    · subst hl
      simp [probe_answers]
      omega

/-- C6 against the adversarial allocator `stubborn`, with exactly 256 units of fuel. -/
theorem terminates_within_bound_witness :
    MAX_PROBED_ALLOCS ≤ 256 ∧
    ∃ (r : FarPtr) (s' : Unit) (iters : List (FarPtr × FarPtr)) (last : Option FarPtr),
      faralloc_inside_64kb_page (logged stubborn) 256 FarPtr.null (fun _ => FarPtr.null)
        ((), []) 65536
        = some (r, (s', call_events 65536 iters (final_events 65536 last))) ∧
      (∃ f, probe_loop (logged stubborn) 65536 256
          { heap := ((), []), ptr := FarPtr.null, consumed_page_ptrs := fun _ => FarPtr.null,
            num_consumed_pages := 0 } = some f ∧
        f.num_consumed_pages = iters.length ∧ f.num_consumed_pages ≤ MAX_PROBED_ALLOCS) ∧
      (probe_answers iters last).length ≤ MAX_PROBED_ALLOCS ∧
      iters.length ≤ MAX_PROBED_ALLOCS :=
  ⟨by decide,
    terminates_within_bound stubborn 256 FarPtr.null (fun _ => FarPtr.null) () 65536
      (by decide)⟩

/-! ## The containment test for every size, and the linear address range -/

/-- C11 fails as stated: for the far pointer `0000:0000` and a size of 131072 bytes the
test answers nonzero, although the range `[0, 131072)` covers two 64KB pages and lies
within no single window `[k*65536, (k+1)*65536)`. -/
theorem containment_accepts_two_pages_at_0000_0000 :
    ¬ (is_64kb_boundary_aligned FarPtr.null 131072 ≠ 0 ↔
        ∃ k : Nat, k * 65536 ≤ calculate_linear_address FarPtr.null ∧
          calculate_linear_address FarPtr.null + 131072 ≤ (k + 1) * 65536) := by
  intro h
  obtain ⟨k, _, hk⟩ := h.1 (by decide)
  have h0 : calculate_linear_address FarPtr.null = 0 := by decide
  rw [h0] at hk
  omega

/-- C11 (amended): for every far pointer with linear address `a` and every size,
`is_64kb_boundary_aligned` is nonzero exactly when either the size is at most 65536 and
`[a, a+size)` lies within one window `[k*65536, (k+1)*65536)`, or the size exceeds 65536
and `a` is a multiple of 65536 (the block starts at a page boundary). -/
theorem containment_window_or_page_start (p : FarPtr) (size : Nat) :
    is_64kb_boundary_aligned p size ≠ 0 ↔
      (size ≤ 65536 ∧ ∃ k : Nat, k * 65536 ≤ calculate_linear_address p ∧
          calculate_linear_address p + size ≤ (k + 1) * 65536) ∨
      (65536 < size ∧ 65536 ∣ calculate_linear_address p) := by
  rw [is_64kb_boundary_aligned_ne_zero]
  generalize calculate_linear_address p = a
  constructor
  · rintro (⟨hs, h0⟩ | ⟨hs, hr⟩)
    · by_cases he : size = 65536
      · exact Or.inl ⟨by omega, a / 65536, by omega, by omega⟩
      · exact Or.inr ⟨by omega, Nat.dvd_of_mod_eq_zero h0⟩
    · exact Or.inl ⟨by omega, a / 65536, by omega, by omega⟩
  · rintro (⟨hs, k, hk1, hk2⟩ | ⟨hs, hd⟩)
    · by_cases he : size = 65536
      · exact Or.inl ⟨by omega, by omega⟩
      · exact Or.inr ⟨by omega, by omega⟩
    · exact Or.inl ⟨by omega, Nat.mod_eq_zero_of_dvd hd⟩

/-- C12 fails as stated: the far pointer `FFFF:0010` has linear address 1048576, which
does not fit in 20 bits. -/
theorem linear_address_exceeds_20_bits_at_FFFF_0010 :
    ¬ calculate_linear_address ⟨65535, 16⟩ < 1048576 := by decide

/-- C12 (amended): for every far pointer `seg:off`, `calculate_linear_address` returns
`seg*16 + off`, no step of the computation exceeds 32 bits, and the value is at most
1114095 (`0x10FFEF`), which the far pointer `FFFF:FFFF` reaches. -/
theorem linear_address_value_and_range (p : FarPtr) :
    calculate_linear_address p = p.seg.val * 16 + p.off.val ∧
    FP_SEG p <<< 4 + FP_OFF p < 2 ^ 32 ∧
    calculate_linear_address p ≤ 1114095 ∧
    calculate_linear_address ⟨65535, 65535⟩ = 1114095 := by
  have h1 := p.seg.isLt
  have h2 := p.off.isLt
  refine ⟨calculate_linear_address_eq p, ?_, ?_, by decide⟩
  · simp only [FP_SEG, FP_OFF, Nat.shiftLeft_eq]
    omega
  · rw [calculate_linear_address_eq]
    omega

/-- C13: with `r` the linear address modulo 65536, the test is nonzero exactly when
(`size >= 65536` and `r = 0`) or (`size < 65536` and `r + size <= 65536`); for
`size >= 65536` the result is the comparison of the low 16 bits of the linear address
with 0; for `size < 65536` the sum `r + size` stays below `2^32`; and at
`size = 65536` the answer equals that of the formula of the other branch. -/
theorem containment_equals_algorithm (p : FarPtr) (size : Nat) :
    (is_64kb_boundary_aligned p size ≠ 0 ↔
      (65536 ≤ size ∧ calculate_linear_address p % 65536 = 0) ∨
      (size < 65536 ∧ calculate_linear_address p % 65536 + size ≤ 65536)) ∧
    (65536 ≤ size →
      is_64kb_boundary_aligned p size
        = if calculate_linear_address p % 2 ^ 16 = 0 then 1 else 0) ∧
    (size < 65536 →
      (calculate_linear_address p &&& 0xFFFF) = calculate_linear_address p % 65536 ∧
      (calculate_linear_address p &&& 0xFFFF) + size < 2 ^ 32) ∧
    (is_64kb_boundary_aligned p 65536 ≠ 0 ↔
      calculate_linear_address p % 65536 + 65536 ≤ 65536) := by
  have hand : calculate_linear_address p &&& 0xFFFF = calculate_linear_address p % 65536 :=
    Nat.and_pow_two_sub_one_eq_mod _ 16
  refine ⟨is_64kb_boundary_aligned_ne_zero p size, ?_, ?_, ?_⟩
  · intro hs
    unfold is_64kb_boundary_aligned
    rw [if_pos hs]
    rfl
  · intro hs
    refine ⟨hand, ?_⟩
    rw [hand]
    have := Nat.mod_lt (calculate_linear_address p) (by decide : 65536 > 0)
    omega
  · rw [is_64kb_boundary_aligned_ne_zero]
    omega

/-- C13 at `0FFF:000A` (linear address 65530) with sizes 65536, 10, 6 and 65536. -/
theorem containment_equals_algorithm_witness :
    (65536 ≤ 65536 ∧ 10 < 65536) ∧
    is_64kb_boundary_aligned (MK_FP 4095 10) 65536 = 0 ∧
    (calculate_linear_address (MK_FP 4095 10) &&& 0xFFFF) + 10 < 2 ^ 32 ∧
    is_64kb_boundary_aligned (MK_FP 4095 10) 6 ≠ 0 := by
  refine ⟨⟨by decide, by decide⟩, ?_, ?_, ?_⟩
  · rw [(containment_equals_algorithm (MK_FP 4095 10) 65536).2.1 (by decide)]
    decide
  · exact ((containment_equals_algorithm (MK_FP 4095 10) 10).2.2.1 (by decide)).2
  · exact (containment_equals_algorithm (MK_FP 4095 10) 6).1.2 (Or.inr (by decide))

/-! ## Algebraic properties of the alignment step and the containment test -/

theorem MK_FP_congr (a b : Nat) (h : a % 65536 = b % 65536) : MK_FP a 0 = MK_FP b 0 := by
  simp only [MK_FP, h]

theorem align_MK_FP_zero (s : Nat) : align_payload_to_64kb (MK_FP s 0) = MK_FP s 0 := by
  unfold align_payload_to_64kb
  simp only []
  rw [calculate_linear_address_MK_FP_zero]
  apply MK_FP_congr
  rw [Nat.shiftRight_eq_div_pow]
  have := Nat.mod_lt s (by decide : 65536 > 0)
  omega

/-- C16: for every far pointer `p`, aligning the aligned pointer again gives the same
segment:offset pair; the aligned pointer has offset 0; so the containment test of the
re-aligned pointer answers as the test of the aligned pointer, for every size. -/
theorem align_idempotent (p : FarPtr) :
    align_payload_to_64kb (align_payload_to_64kb p) = align_payload_to_64kb p ∧
    FP_OFF (align_payload_to_64kb p) = 0 ∧
    ∀ size : Nat,
      is_64kb_boundary_aligned (align_payload_to_64kb (align_payload_to_64kb p)) size
        = is_64kb_boundary_aligned (align_payload_to_64kb p) size := by
  have h : align_payload_to_64kb (align_payload_to_64kb p) = align_payload_to_64kb p := by
    conv_lhs => rw [align_payload_to_64kb]
    conv_rhs => rw [align_payload_to_64kb]
    exact align_MK_FP_zero _
  refine ⟨h, ?_, fun size => by rw [h]⟩
  simp [align_payload_to_64kb, MK_FP, FP_OFF]

/-- C17: for every far pointer `p` and all sizes `s' <= s`, if the containment test
accepts `p` for `s` bytes then it accepts `p` for `s'` bytes. -/
theorem containment_monotone (p : FarPtr) (s s' : Nat) (hle : s' ≤ s)
    (h : is_64kb_boundary_aligned p s ≠ 0) : is_64kb_boundary_aligned p s' ≠ 0 := by
  rw [is_64kb_boundary_aligned_ne_zero] at h ⊢
  omega

/-- C17 at `1000:0000` (linear address 65536): accepted for 131072 bytes, hence for
65536 bytes and for 10 bytes. -/
theorem containment_monotone_witness :
    (65536 ≤ 131072 ∧ 10 ≤ 131072) ∧
    is_64kb_boundary_aligned (MK_FP 4096 0) 131072 ≠ 0 ∧
    is_64kb_boundary_aligned (MK_FP 4096 0) 65536 ≠ 0 ∧
    is_64kb_boundary_aligned (MK_FP 4096 0) 10 ≠ 0 :=
  ⟨⟨by decide, by decide⟩, by decide,
    containment_monotone (MK_FP 4096 0) 131072 65536 (by decide) (by decide),
    containment_monotone (MK_FP 4096 0) 131072 10 (by decide) (by decide)⟩

/-! ## Request sizes and the shape of the sequence of calls -/

/-- A probe block is rejected only if its linear address modulo 65536 lies in
`[1, 65520]`: otherwise its aligned pointer starts a 64KB page and passes for every size. -/
theorem rejected_offset_bounds (p : FarPtr) (nb : Nat)
    (h : is_64kb_boundary_aligned (align_payload_to_64kb p) nb = 0) :
    1 ≤ calculate_linear_address p % 65536 ∧ calculate_linear_address p % 65536 ≤ 65520 := by
  have hn : ¬ is_64kb_boundary_aligned (align_payload_to_64kb p) nb ≠ 0 := fun hne => hne h
  rw [is_64kb_boundary_aligned_ne_zero, calculate_linear_address_align] at hn
  generalize calculate_linear_address p = a at hn ⊢
  omega

theorem consume_size_of_rejected (p : FarPtr) (nb : Nat)
    (h : is_64kb_boundary_aligned (align_payload_to_64kb p) nb = 0) :
    consume_size p = 65520 - calculate_linear_address p % 65536 := by
  have hb := rejected_offset_bounds p nb h
  unfold consume_size
  omega

/-- C14: for every `num_bytes` and every far pointer `p` whose aligned pointer fails the
containment test, `1 <= lin p mod 65536 <= 65520`, so the 16-bit subtraction does not
wrap and the consuming size is `65520 - lin p mod 65536`, a value in `[0, 65519]`; and
in every call, each failed iteration's consuming request asks for exactly that size. -/
theorem consuming_request_size {σ : Type} (A : Allocator σ) (fuel : Nat)
    (ptr0 : FarPtr) (slots0 : Nat → FarPtr) (s : σ) (num_bytes : Nat)
    (hfuel : MAX_PROBED_ALLOCS ≤ fuel) :
    (∀ p : FarPtr, is_64kb_boundary_aligned (align_payload_to_64kb p) num_bytes = 0 →
      1 ≤ calculate_linear_address p % 65536 ∧
      calculate_linear_address p % 65536 ≤ 65520 ∧
      consume_size p = 65520 - calculate_linear_address p % 65536 ∧
      consume_size p ≤ 65519) ∧
    ∃ (r : FarPtr) (s' : σ) (iters : List (FarPtr × FarPtr)) (last : Option FarPtr),
      faralloc_inside_64kb_page (logged A) fuel ptr0 slots0 (s, []) num_bytes
        = some (r, (s', call_events num_bytes iters (final_events num_bytes last))) ∧
      ∀ pc ∈ iters,
        is_64kb_boundary_aligned (align_payload_to_64kb pc.1) num_bytes = 0 ∧
        iter_events num_bytes pc
          = [Event.malloc ((num_bytes + 15) % 2 ^ 32) pc.1, Event.free pc.1,
             Event.malloc (65520 - calculate_linear_address pc.1 % 65536) pc.2] ∧
        65520 - calculate_linear_address pc.1 % 65536 ≤ 65519 := by
  constructor
  · intro p h
    have hb := rejected_offset_bounds p num_bytes h
    have hc := consume_size_of_rejected p num_bytes h
    exact ⟨hb.1, hb.2, hc, by omega⟩
  · obtain ⟨r, s', iters, last, hrun, hrej, _⟩ :=
      faralloc_run A fuel ptr0 slots0 s num_bytes hfuel
    refine ⟨r, s', iters, last, hrun, fun pc hpc => ?_⟩
    have h := hrej pc hpc
    have hb := rejected_offset_bounds pc.1 num_bytes h
    refine ⟨h, ?_, by omega⟩
    rw [iter_events, consume_size_of_rejected pc.1 num_bytes h]

/-- C14 on the first-fit run for 65536 bytes: the rejected probe `0800:0004` has linear
address 32772, and the consuming request asks for 65520 - 32772 = 32748 bytes. -/
theorem consuming_request_size_witness :
    MAX_PROBED_ALLOCS ≤ 256 ∧
    is_64kb_boundary_aligned (align_payload_to_64kb (MK_FP 2048 4)) 65536 = 0 ∧
    calculate_linear_address (MK_FP 2048 4) % 65536 = 32772 ∧
    consume_size (MK_FP 2048 4) = 65520 - calculate_linear_address (MK_FP 2048 4) % 65536 ∧
    consume_size (MK_FP 2048 4) ≤ 65519 ∧
    faralloc_inside_64kb_page (logged (scripted first_fit_answers)) 256 FarPtr.null
      (fun _ => FarPtr.null) (0, []) 65536
      = some (MK_FP 4095 4, (3, first_fit_calls 65536)) := by
  have h := (consuming_request_size (scripted first_fit_answers) 256 FarPtr.null
    (fun _ => FarPtr.null) 0 65536 (by decide)).1 (MK_FP 2048 4) (by decide)
  exact ⟨by decide, by decide, by decide, h.2.2.1, h.2.2.2, by decide⟩

/-- C15, the code at `num_bytes = 4294967295`: the probe request `num_bytes + 15` wraps
around in 32 bits and asks the allocator for 14 bytes; an allocator that answers
`0FFF:0004` has this block accepted and returned as the result of the call. -/
theorem probe_request_wraps_at_4294967295 :
    (4294967295 + 15) % 2 ^ 32 = 14 ∧
    faralloc_inside_64kb_page (logged (scripted [MK_FP 4095 4])) 256 FarPtr.null
      (fun _ => FarPtr.null) (0, []) 4294967295
      = some (MK_FP 4095 4, (1, [Event.malloc 14 (MK_FP 4095 4)])) := by
  exact ⟨by decide, by decide⟩

/-- The probe requests of a call ask for `num_bytes + 15` bytes whenever that sum fits in
32 bits, that is for `num_bytes <= 4294967280`. -/
theorem probe_request_size_in_range (num_bytes : Nat) (h : num_bytes ≤ 4294967280)
    (pc : FarPtr × FarPtr) (last : FarPtr) :
    iter_events num_bytes pc
      = [Event.malloc (num_bytes + 15) pc.1, Event.free pc.1,
         Event.malloc (consume_size pc.1) pc.2] ∧
    final_events num_bytes (some last) = [Event.malloc (num_bytes + 15) last] := by
  have hm : (num_bytes + 15) % 2 ^ 32 = num_bytes + 15 := Nat.mod_eq_of_lt (by omega)
  simp only [iter_events, final_events, hm, and_self]

/-- C18: for every `num_bytes` and every allocator, the calls of one call are: for each
of the `k` rejected probes, in order, the probe request of `num_bytes + 15` bytes (in
32-bit arithmetic), the release of that probe block and the consuming request; then,
exactly when `k < 256`, one last probe request, whose accepted answer is returned; then
the releases of the `k` consuming pointers, last obtained first. `k` is at most 256, and
with `k = 256` null is returned. -/
theorem call_trace_shape {σ : Type} (A : Allocator σ) (fuel : Nat)
    (ptr0 : FarPtr) (slots0 : Nat → FarPtr) (s : σ) (num_bytes : Nat)
    (hfuel : MAX_PROBED_ALLOCS ≤ fuel) :
    ∃ (r : FarPtr) (s' : σ) (iters : List (FarPtr × FarPtr)) (last : Option FarPtr),
      faralloc_inside_64kb_page (logged A) fuel ptr0 slots0 (s, []) num_bytes
        = some (r, (s',
            iters.flatMap (fun pc =>
              [Event.malloc ((num_bytes + 15) % 2 ^ 32) pc.1, Event.free pc.1,
               Event.malloc (consume_size pc.1) pc.2])
            ++ (match last with
                | none => []
                | some p => [Event.malloc ((num_bytes + 15) % 2 ^ 32) p])
            ++ ((iters.map Prod.snd).reverse).map Event.free)) ∧
      (∀ pc ∈ iters, is_64kb_boundary_aligned (align_payload_to_64kb pc.1) num_bytes = 0) ∧
      iters.length ≤ 256 ∧
      (iters.length < 256 →
        last = some r ∧
        is_64kb_boundary_aligned (align_payload_to_64kb r) num_bytes ≠ 0) ∧
      (iters.length = 256 → last = none ∧ r = FarPtr.null) := by
  obtain ⟨r, s', iters, last, hrun, hrej, hlast⟩ :=
    faralloc_run A fuel ptr0 slots0 s num_bytes hfuel
  refine ⟨r, s', iters, last, hrun, hrej, ?_, ?_, ?_⟩
  · rcases hlast with ⟨_, _, h⟩ | ⟨_, _, h⟩ <;> simp only [MAX_PROBED_ALLOCS] at h <;> omega
  · intro hk
    rcases hlast with ⟨h1, h2, _⟩ | ⟨_, _, h⟩
    · exact ⟨h1, h2⟩
    · simp only [MAX_PROBED_ALLOCS] at h
      omega
  · intro hk
    rcases hlast with ⟨_, _, h⟩ | ⟨h1, h2, _⟩
    · simp only [MAX_PROBED_ALLOCS] at h
      omega
    · exact ⟨h1, h2⟩

/-- C18 on the first-fit run for 65536 bytes, where `k = 1`: probe, release, consuming
request, accepted probe, release of the consuming block. -/
theorem call_trace_shape_witness :
    MAX_PROBED_ALLOCS ≤ 256 ∧
    faralloc_inside_64kb_page (logged (scripted first_fit_answers)) 256 FarPtr.null
      (fun _ => FarPtr.null) (0, []) 65536
      = some (MK_FP 4095 4, (3,
          [Event.malloc 65551 (MK_FP 2048 4), Event.free (MK_FP 2048 4),
           Event.malloc 32748 (MK_FP 2048 4)]
          ++ [Event.malloc 65551 (MK_FP 4095 4)] ++ [Event.free (MK_FP 2048 4)])) ∧
    ∃ (r : FarPtr) (s' : Nat) (iters : List (FarPtr × FarPtr)) (last : Option FarPtr),
      faralloc_inside_64kb_page (logged (scripted first_fit_answers)) 256 FarPtr.null
        (fun _ => FarPtr.null) (0, []) 65536
        = some (r, (s',
            iters.flatMap (fun pc =>
              [Event.malloc ((65536 + 15) % 2 ^ 32) pc.1, Event.free pc.1,
               Event.malloc (consume_size pc.1) pc.2])
            ++ (match last with
                | none => []
                | some p => [Event.malloc ((65536 + 15) % 2 ^ 32) p])
            ++ ((iters.map Prod.snd).reverse).map Event.free)) ∧
      (∀ pc ∈ iters, is_64kb_boundary_aligned (align_payload_to_64kb pc.1) 65536 = 0) ∧
      iters.length ≤ 256 ∧
      (iters.length < 256 →
        last = some r ∧ is_64kb_boundary_aligned (align_payload_to_64kb r) 65536 ≠ 0) ∧
      (iters.length = 256 → last = none ∧ r = FarPtr.null) :=
  ⟨by decide, by decide,
    call_trace_shape (scripted first_fit_answers) 256 FarPtr.null (fun _ => FarPtr.null)
      0 65536 (by decide)⟩

end Alloc64k
